import Mathlib

/-!
Verification development for the OCR image pipeline: the canonical pixel
buffer, the tensor preparer (`ModelBase.imageToInput`), the image-input
normalizer's dispatch and factory methods (`ImageRaw`), the 2-D context
cache (`getContext2D`), and the promise-chained mutex of `Ocr.detect`.

Machine numbers are modelled as exact rationals (`ℚ`); byte values of a
`Uint8ClampedArray` as naturals bounded by 255.  JS `undefined` is
modelled with `Option`; fallible code returns `Except`.
-/

namespace Ocr

/-- Canonical pixel buffer: RGBA bytes, row-major, 4 bytes per pixel.
`data` holds byte values (a `Uint8ClampedArray` guarantees `0 ≤ v ≤ 255`). -/
structure ImageRaw where
  data : List ℕ
  width : ℕ
  height : ℕ

/-- Result of `imageToInput`: planar float data plus the buffer geometry. -/
structure ModelData where
  data : List ℚ
  width : ℕ
  height : ℕ

/-- Embedding of `ModelBase.imageToInput` (src/unnamed/part_000, lines 44-65).

The source allocates `Float32Array(pixelCount * 3)` with
`pixelCount = image.data.length / 4` and runs one loop over pixels
`p = 0 .. pixelCount-1` (`i = 4p`), writing
`newData[rOffset + p] = (data[4p] / 255 - mean[0]) / std[0]` with
`rOffset = pixelCount * 2`, `newData[gOffset + p]` from `data[4p+1]` with
`gOffset = pixelCount`, and `newData[bOffset + p]` from `data[4p+2]` with
`bOffset = 0` (comment in the source: "BGR order (model expects BGR)").
The three write ranges are disjoint and cover the output exactly, so the
final array is the concatenation `bPlane ++ gPlane ++ rPlane`.  Division is
exact rational division (the source's `std` is nonzero by configuration
invariant, so the JS infinity at `std = 0` is outside the modelled range). -/
def ModelBase.imageToInput (image : ImageRaw) (mean std : List ℚ) : ModelData :=
  let pixelCount := image.data.length / 4
  let pix : ℕ → ℚ := fun k => (image.data.getD k 0 : ℚ)
  let bPlane := (List.range pixelCount).map fun p =>
    (pix (4 * p + 2) / 255 - mean.getD 2 0) / std.getD 2 0
  let gPlane := (List.range pixelCount).map fun p =>
    (pix (4 * p + 1) / 255 - mean.getD 1 0) / std.getD 1 0
  let rPlane := (List.range pixelCount).map fun p =>
    (pix (4 * p) / 255 - mean.getD 0 0) / std.getD 0 0
  { data := bPlane ++ gPlane ++ rPlane, width := image.width, height := image.height }

/-- The canonical two-pixel test buffer of the spec's scenario:
`{width: 2, height: 1, data: [255,0,0,255, 0,255,0,255]}`. -/
def canonicalBuffer : ImageRaw :=
  { data := [255, 0, 0, 255, 0, 255, 0, 255], width := 2, height := 1 }

/-- Index lemma for the planar concatenation produced by `imageToInput`
(note `++` is left-associative, so the data is `(b ++ g) ++ r`). -/
lemma planes_getD (pc : ℕ) (fb fg fr : ℕ → ℚ) (p : ℕ) (hp : p < pc) :
    (((List.range pc).map fb ++ (List.range pc).map fg ++ (List.range pc).map fr).getD p 0
        = fb p)
    ∧ (((List.range pc).map fb ++ (List.range pc).map fg ++ (List.range pc).map fr).getD
        (pc + p) 0 = fg p)
    ∧ (((List.range pc).map fb ++ (List.range pc).map fg ++ (List.range pc).map fr).getD
        (2 * pc + p) 0 = fr p) := by
  refine ⟨?_, ?_, ?_⟩
  · rw [List.getD_append _ _ _ _ (by simp; omega)]
    rw [List.getD_append _ _ _ _ (by simp [hp])]
    rw [List.getD_eq_getElem _ _ (by simp [hp])]
    simp [hp]
  · rw [List.getD_append _ _ _ _ (by simp; omega)]
    rw [List.getD_append_right _ _ _ _ (by simp)]
    rw [List.getD_eq_getElem _ _ (by simp; omega)]
    simp [hp]
  · rw [List.getD_append_right _ _ _ _ (by simp; omega)]
    rw [List.getD_eq_getElem _ _ (by simp; omega)]
    have h2 : 2 * pc + p - (pc + pc) = p := by omega
    simp [h2, hp]

/-- C1 counterexample: on the canonical buffer with mean `[0,0,0]` and std
`[1,1,1]`, the value at pixel 0 of the plane stored first in the planar
output is `0.0` (the blue channel, 0/255), not `1.0` as the claim states:
the source stores the planes in B, G, R order ("model expects BGR"), so
the red-derived value does not land in the first-stored plane. -/
theorem imageToInput_first_plane_pixel0_not_one :
    (ModelBase.imageToInput canonicalBuffer [0, 0, 0] [1, 1, 1]).data.getD 0 0 = 0
    ∧ (ModelBase.imageToInput canonicalBuffer [0, 0, 0] [1, 1, 1]).data.getD 0 0 ≠ 1 := by
  constructor <;> norm_num [ModelBase.imageToInput, canonicalBuffer, List.range_succ]

/-- C1 amended: on the canonical buffer with mean `[0,0,0]` and std `[1,1,1]`
the planar output is `[0, 0, 0, 1, 1, 0]`: pixel 0 of the plane stored first
(the blue plane) is `0.0` (0/255), and the value `1.0` coming from the red
channel (255/255) sits at pixel 0 of the plane stored last (index
`2 * pixelCount = 4`). -/
theorem imageToInput_canonical_planes :
    (ModelBase.imageToInput canonicalBuffer [0, 0, 0] [1, 1, 1]).data = [0, 0, 0, 1, 1, 0]
    ∧ (ModelBase.imageToInput canonicalBuffer [0, 0, 0] [1, 1, 1]).data.getD 0 0 = 0
    ∧ (ModelBase.imageToInput canonicalBuffer [0, 0, 0] [1, 1, 1]).data.getD 4 0 = 1 := by
  refine ⟨?_, ?_, ?_⟩ <;> norm_num [ModelBase.imageToInput, canonicalBuffer, List.range_succ]

/-- C5: for every buffer whose data length equals `4 * width * height`, the
tensor preparer returns data of length exactly `3 * width * height`; each
element is `(value/255 - mean[c]) / std[c]` with the alpha byte ignored
(the B plane reads byte `4p+2`, the G plane byte `4p+1`, the R plane byte
`4p`); and with the default mean `[0,0,0]` and std `[1,1,1]` every output
element lies in `[0,1]`. -/
theorem imageToInput_length_formula_range (image : ImageRaw) (mean std : List ℚ)
    (hlen : image.data.length = 4 * image.width * image.height)
    (hbyte : ∀ v ∈ image.data, v ≤ 255) :
    (ModelBase.imageToInput image mean std).data.length = 3 * (image.width * image.height)
    ∧ (∀ p < image.width * image.height,
        (ModelBase.imageToInput image mean std).data.getD p 0
          = ((image.data.getD (4 * p + 2) 0 : ℚ) / 255 - mean.getD 2 0) / std.getD 2 0
        ∧ (ModelBase.imageToInput image mean std).data.getD (image.width * image.height + p) 0
          = ((image.data.getD (4 * p + 1) 0 : ℚ) / 255 - mean.getD 1 0) / std.getD 1 0
        ∧ (ModelBase.imageToInput image mean std).data.getD
            (2 * (image.width * image.height) + p) 0
          = ((image.data.getD (4 * p) 0 : ℚ) / 255 - mean.getD 0 0) / std.getD 0 0)
    ∧ (mean = [0, 0, 0] → std = [1, 1, 1] →
        ∀ q ∈ (ModelBase.imageToInput image mean std).data, 0 ≤ q ∧ q ≤ 1) := by
  have hpc : image.data.length / 4 = image.width * image.height := by
    rw [hlen, Nat.mul_assoc]
    exact Nat.mul_div_cancel_left _ (by norm_num)
  refine ⟨?_, ?_, ?_⟩
  · simp [ModelBase.imageToInput, hpc]
    ring
  · intro p hp
    rw [← hpc] at hp ⊢
    simp only [ModelBase.imageToInput]
    exact planes_getD (image.data.length / 4)
      (fun p => ((image.data.getD (4 * p + 2) 0 : ℚ) / 255 - mean.getD 2 0) / std.getD 2 0)
      (fun p => ((image.data.getD (4 * p + 1) 0 : ℚ) / 255 - mean.getD 1 0) / std.getD 1 0)
      (fun p => ((image.data.getD (4 * p) 0 : ℚ) / 255 - mean.getD 0 0) / std.getD 0 0)
      p hp
  · rintro rfl rfl q hq
    simp only [ModelBase.imageToInput, List.mem_append, List.mem_map, List.mem_range] at hq
    have hget : ∀ k : ℕ, (0 : ℚ) ≤ (image.data.getD k 0 : ℚ)
        ∧ (image.data.getD k 0 : ℚ) ≤ 255 := by
      intro k
      refine ⟨Nat.cast_nonneg _, ?_⟩
      rcases Nat.lt_or_ge k image.data.length with hk | hk
      · have := hbyte (image.data.getD k 0) (by
          rw [List.getD_eq_getElem _ _ hk]
          exact image.data.getElem_mem hk)
        exact_mod_cast this
      · rw [List.getD_eq_default _ _ hk]
        norm_num
    have hval : ∀ k : ℕ, q = ((image.data.getD k 0 : ℚ) / 255 - 0) / 1 → 0 ≤ q ∧ q ≤ 1 := by
      intro k hk
      obtain ⟨h0, h255⟩ := hget k
      subst hk
      rw [sub_zero, div_one]
      constructor
      · exact div_nonneg h0 (by norm_num)
      · rw [div_le_one (by norm_num)]
        exact h255
    rcases hq with (⟨k, _, hfq⟩ | ⟨k, _, hfq⟩) | ⟨k, _, hfq⟩
    · exact hval _ (by simpa using hfq.symm)
    · exact hval _ (by simpa using hfq.symm)
    · exact hval _ (by simpa using hfq.symm)

/-- Witness for C5 at the canonical buffer: length is `3 * (2 * 1) = 6`, the
first-plane formula holds at pixel 0, and the element `1` of the output is
inside `[0,1]`. -/
theorem imageToInput_length_formula_range_witness :
    (ModelBase.imageToInput canonicalBuffer [0, 0, 0] [1, 1, 1]).data.length = 3 * (2 * 1)
    ∧ (ModelBase.imageToInput canonicalBuffer [0, 0, 0] [1, 1, 1]).data.getD 0 0
        = ((canonicalBuffer.data.getD 2 0 : ℚ) / 255 - 0) / 1
    ∧ ((0 : ℚ) ≤ 1 ∧ (1 : ℚ) ≤ 1) := by
  have h := imageToInput_length_formula_range canonicalBuffer [0, 0, 0] [1, 1, 1]
    (by norm_num [canonicalBuffer]) (by decide)
  refine ⟨h.1, ?_, ?_⟩
  · have h2 := (h.2.1 0 (by norm_num [canonicalBuffer])).1
    simpa [canonicalBuffer] using h2
  · exact h.2.2 rfl rfl 1 (by norm_num [ModelBase.imageToInput, canonicalBuffer, List.range_succ])

/-! Input dispatch: the `isImageRawData` type guard. -/

/-- Model of the JS values reaching the normalizer's type guards: `null`,
`undefined`, primitives, the two accepted byte-array classes, and plain
objects as association lists of named fields. -/
inductive JSValue where
  | vNull : JSValue
  | vUndefined : JSValue
  | vNum : ℚ → JSValue
  | vStr : String → JSValue
  | vBool : Bool → JSValue
  | vUint8Array : List ℕ → JSValue
  | vUint8ClampedArray : List ℕ → JSValue
  | vObj : List (String × JSValue) → JSValue

/-- JS `typeof input === 'object'`: true for plain objects, typed arrays,
and `null`. -/
def JSValue.typeofIsObject : JSValue → Bool
  | .vNull => true
  | .vObj _ => true
  | .vUint8Array _ => true
  | .vUint8ClampedArray _ => true
  | _ => false

/-- JS `input !== null`. -/
def JSValue.isNotNull : JSValue → Bool
  | .vNull => false
  | _ => true

/-- JS `'name' in input`: property presence.  Only plain objects carry the
named fields the guard asks for (a typed array has no `data`, `width` or
`height` property). -/
def JSValue.hasField : JSValue → String → Bool
  | .vObj fields, name => fields.any fun f => f.1 == name
  | _, _ => false

/-- JS property read `input.name`, `undefined` when absent. -/
def JSValue.getField : JSValue → String → JSValue
  | .vObj fields, name =>
    match fields.find? (fun f => f.1 == name) with
    | some f => f.2
    | none => .vUndefined
  | _, _ => .vUndefined

/-- JS `v instanceof Uint8Array`. -/
def JSValue.isUint8Array : JSValue → Bool
  | .vUint8Array _ => true
  | _ => false

/-- JS `v instanceof Uint8ClampedArray`. -/
def JSValue.isUint8ClampedArray : JSValue → Bool
  | .vUint8ClampedArray _ => true
  | _ => false

/-- JS `typeof v === 'number'`. -/
def JSValue.isNumber : JSValue → Bool
  | .vNum _ => true
  | _ => false

/-- Embedding of `ImageRaw.isImageRawData` (src/unnamed/part_001 lines
140-149, textually identical in src/unnamed/part_002 lines 45-54):
`typeof input === 'object' && input !== null && 'data' in input &&
'width' in input && 'height' in input && (input.data instanceof Uint8Array
|| input.data instanceof Uint8ClampedArray)`. -/
def isImageRawData (input : JSValue) : Bool :=
  input.typeofIsObject && input.isNotNull
    && input.hasField "data" && input.hasField "width" && input.hasField "height"
    && ((input.getField "data").isUint8Array || (input.getField "data").isUint8ClampedArray)

/-- Recognition test as the spec words it: "has numeric width, numeric
height, and a byte array field of the two accepted element types".  Kept
separate from `isImageRawData` so the two can be compared. -/
def isImageRawDataSpec (input : JSValue) : Bool :=
  (input.getField "width").isNumber && (input.getField "height").isNumber
    && ((input.getField "data").isUint8Array || (input.getField "data").isUint8ClampedArray)

/-- An object carrying a byte-array `data` field but a string `width`. -/
def nonNumericWidthInput : JSValue :=
  .vObj [("data", .vUint8Array []), ("width", .vStr "two"), ("height", .vNum 1)]

/-- C6 counterexample: the guard accepts an object whose `width` field is a
string, because the source only tests `'width' in input` (presence), never
numericness; so "an object whose width or height is present but not numeric
is not treated as canonical data" fails. -/
theorem isImageRawData_accepts_nonNumericWidth :
    isImageRawData nonNumericWidthInput = true
    ∧ (nonNumericWidthInput.getField "width").isNumber = false := by
  decide

/-- Auxiliary: a successfully read field is present. -/
lemma JSValue.hasField_of_getField_ne_undefined (input : JSValue) (n : String)
    (h : input.getField n ≠ .vUndefined) : input.hasField n = true := by
  cases input <;> simp [JSValue.getField, JSValue.hasField] at h ⊢
  next fields =>
    cases hf : fields.find? (fun f => f.1 == n) with
    | none => rw [hf] at h; simp at h
    | some f =>
      have hmem := List.mem_of_find?_eq_some hf
      have hn : f.1 = n := by simpa using List.find?_some hf
      exact ⟨f.2, by rw [← hn]; exact hmem⟩

/-- C6 amended: the guard's test is presence-based, not numeric: it accepts
exactly the non-null objects carrying `data`, `width` and `height` fields
with `data` of one of the two accepted byte-array types; the spec's
numeric-field test is strictly stronger (everything it accepts the guard
accepts, but not conversely, per the counterexample). -/
theorem isImageRawData_presence_only (input : JSValue) :
    (isImageRawDataSpec input = true → isImageRawData input = true)
    ∧ (isImageRawData input = true
        ↔ input.typeofIsObject = true ∧ input.isNotNull = true
          ∧ input.hasField "data" = true ∧ input.hasField "width" = true
          ∧ input.hasField "height" = true
          ∧ ((input.getField "data").isUint8Array = true
              ∨ (input.getField "data").isUint8ClampedArray = true)) := by
  constructor
  · intro h
    simp only [isImageRawDataSpec, Bool.and_eq_true, Bool.or_eq_true] at h
    obtain ⟨⟨hw, hh⟩, hdata⟩ := h
    have hobj : input.typeofIsObject = true ∧ input.isNotNull = true := by
      cases input <;> simp_all [JSValue.getField, JSValue.isNumber,
        JSValue.typeofIsObject, JSValue.isNotNull]
    have hfw : input.hasField "width" = true := by
      refine input.hasField_of_getField_ne_undefined _ ?_
      intro he
      rw [he] at hw
      simp [JSValue.isNumber] at hw
    have hfh : input.hasField "height" = true := by
      refine input.hasField_of_getField_ne_undefined _ ?_
      intro he
      rw [he] at hh
      simp [JSValue.isNumber] at hh
    have hfd : input.hasField "data" = true := by
      refine input.hasField_of_getField_ne_undefined _ ?_
      intro he
      rw [he] at hdata
      simp [JSValue.isUint8Array, JSValue.isUint8ClampedArray] at hdata
    simp only [isImageRawData, Bool.and_eq_true, Bool.or_eq_true]
    exact ⟨⟨⟨⟨⟨hobj.1, hobj.2⟩, hfd⟩, hfw⟩, hfh⟩, hdata⟩
  · simp only [isImageRawData, Bool.and_eq_true, Bool.or_eq_true]
    tauto

/-- Witness for C6's amended theorem at a concrete well-formed buffer
object: the spec-style test accepts it, hence so does the source guard. -/
theorem isImageRawData_presence_only_witness :
    isImageRawData
      (.vObj [("data", .vUint8ClampedArray [0, 0, 0, 255]), ("width", .vNum 1),
        ("height", .vNum 1)]) = true :=
  (isImageRawData_presence_only
    (.vObj [("data", .vUint8ClampedArray [0, 0, 0, 255]), ("width", .vNum 1),
      ("height", .vNum 1)])).1 (by decide)

/-! Resize: aspect-ratio preservation, and the falsy-zero corner of `||`. -/

/-- JS `Math.round`: round half toward positive infinity. -/
def jsRound (q : ℚ) : ℤ := ⌊q + 1 / 2⌋

/-- The width/height part of a `SizeOption`; `none` models an absent
(`undefined`) field. -/
structure SizeOption where
  width : Option ℚ
  height : Option ℚ

/-- One dimension of `ImageRaw.resize`: `own || Math.round(a / b * other!)`
(src/unnamed/part_001 lines 422-423, src/unnamed/part_002 lines 251-252).
JS `||` takes the fallback both when `own` is `undefined` and when it is
`0` (both falsy).  The result is `none` exactly when JS produces `NaN`,
i.e. when the fallback is evaluated but `other` is `undefined`.  Division
is exact rational division (dimensions are positive in every modelled use;
JS float infinities at a zero divisor are outside the modelled range). -/
def resizeNewDim (a b : ℚ) (own other : Option ℚ) : Option ℚ :=
  match own with
  | some x => if x = 0 then other.map (fun y => (jsRound (a / b * y) : ℚ)) else some x
  | none => other.map fun y => (jsRound (a / b * y) : ℚ)

/-- Embedding of the dimension computation of `ImageRaw.resize`
(src/unnamed/part_001 lines 420-428, src/unnamed/part_002 lines 249-257).
The outer `none` models the throw of
`invariant(width !== undefined || height !== undefined)`; otherwise the
result is `(newWidth, newHeight)` with
`newWidth = width || Math.round((this.width / this.height) * height!)` and
`newHeight = height || Math.round((this.height / this.width) * width!)`.
The source then draws onto a fresh canvas of exactly these dimensions and
reads them back, so they are the returned image's dimensions. -/
def ImageRaw.resize (img : ImageRaw) (opt : SizeOption) : Option (Option ℚ × Option ℚ) :=
  if opt.width = none ∧ opt.height = none then none
  else some
    (resizeNewDim (img.width : ℚ) (img.height : ℚ) opt.width opt.height,
     resizeNewDim (img.height : ℚ) (img.width : ℚ) opt.height opt.width)

/-- Rounding to the nearest integer moves a rational by at most half. -/
lemma jsRound_close (q : ℚ) : |(jsRound q : ℚ) - q| ≤ 1 / 2 := by
  simp only [jsRound]
  rw [abs_le]
  have h1 : ((⌊q + 1 / 2⌋ : ℚ)) ≤ q + 1 / 2 := Int.floor_le _
  have h2 : q + 1 / 2 < (⌊q + 1 / 2⌋ : ℚ) + 1 := Int.lt_floor_add_one _
  constructor <;> linarith

/-- C7: a resize specifying exactly one of width/height (the other
undefined) on an image with positive dimensions computes the missing
dimension as the real-valued aspect-scaled dimension rounded to the
nearest integer, hence preserves the aspect ratio to within one rounding
unit (at most half a unit either way). -/
theorem resize_preserves_aspect (img : ImageRaw) (x : ℚ)
    (hw : 0 < img.width) (hh : 0 < img.height) (hx : 0 < x) :
    (ImageRaw.resize img ⟨some x, none⟩
        = some (some x, some ((jsRound ((img.height : ℚ) / img.width * x) : ℚ)))
      ∧ |((jsRound ((img.height : ℚ) / img.width * x) : ℚ))
          - (img.height : ℚ) / img.width * x| ≤ 1 / 2)
    ∧ (ImageRaw.resize img ⟨none, some x⟩
        = some (some ((jsRound ((img.width : ℚ) / img.height * x) : ℚ)), some x)
      ∧ |((jsRound ((img.width : ℚ) / img.height * x) : ℚ))
          - (img.width : ℚ) / img.height * x| ≤ 1 / 2) := by
  refine ⟨⟨?_, jsRound_close _⟩, ⟨?_, jsRound_close _⟩⟩ <;>
    simp [ImageRaw.resize, resizeNewDim, hx.ne']

/-- Witness for C7 on the canonical 2×1 buffer with width 5 requested:
the height comes out as `round(1/2 * 5) = 3`, within half a unit of `5/2`. -/
theorem resize_preserves_aspect_witness :
    ImageRaw.resize canonicalBuffer ⟨some 5, none⟩ = some (some 5, some 3)
    ∧ |(3 : ℚ) - (1 : ℚ) / 2 * 5| ≤ 1 / 2 := by
  have h := (resize_preserves_aspect canonicalBuffer 5
    (by norm_num [canonicalBuffer]) (by norm_num [canonicalBuffer]) (by norm_num)).1
  have hr : jsRound ((canonicalBuffer.height : ℚ) / canonicalBuffer.width * 5) = 3 := by
    norm_num [canonicalBuffer, jsRound]
  constructor
  · rw [h.1, hr]; norm_num
  · have := h.2
    rw [hr] at this
    simpa [canonicalBuffer] using this

/-- C9: a resize in which one of width/height is `0` and the other is a
positive number treats the zero as absent (JS `||` treats `0` as falsy):
the zero dimension is recomputed from the original aspect ratio and the
non-zero argument rather than set to `0`. -/
theorem resize_zero_treated_as_absent (img : ImageRaw) (y : ℚ)
    (hw : 0 < img.width) (hh : 0 < img.height) (hy : 0 < y) :
    ImageRaw.resize img ⟨some 0, some y⟩
        = some (some ((jsRound ((img.width : ℚ) / img.height * y) : ℚ)), some y)
    ∧ ImageRaw.resize img ⟨some y, some 0⟩
        = some (some y, some ((jsRound ((img.height : ℚ) / img.width * y) : ℚ))) := by
  constructor <;> simp [ImageRaw.resize, resizeNewDim, hy.ne']

/-- Witness for C9 on the canonical 2×1 buffer: `{width: 0, height: 3}`
yields width `round(2/1 * 3) = 6`, not `0`. -/
theorem resize_zero_treated_as_absent_witness :
    ImageRaw.resize canonicalBuffer ⟨some 0, some 3⟩ = some (some 6, some 3) := by
  have h := (resize_zero_treated_as_absent canonicalBuffer 3
    (by norm_num [canonicalBuffer]) (by norm_num [canonicalBuffer]) (by norm_num)).1
  have hr : jsRound ((canonicalBuffer.width : ℚ) / canonicalBuffer.height * 3) = 6 := by
    norm_num [canonicalBuffer, jsRound]
  rw [h, hr]
  norm_num

/-! Context acquisition and its WeakMap cache. -/

/-- Cache state of `contextCache : WeakMap<AnyCanvas, AnyCanvasContext>`
(src/unnamed/part_001 line 21), modelled as an association list from
canvas identity to context identity (both as ids). -/
def cacheLookup (st : List (ℕ × ℕ)) (canvas : ℕ) : Option ℕ :=
  (st.find? fun e => e.1 == canvas).map fun e => e.2

/-- Embedding of `getContext2D` (src/unnamed/part_001 lines 43-58): return
the cached context when present, otherwise call the platform's
`canvas.getContext('2d', ...)` — modelled by `mkCtx`, a fixed function of
the canvas, since a canvas consistently yields its one 2-D context or
consistently `null` — and cache a non-null result.  Returns the context
(`none` models JS `null`) and the updated cache. -/
def getContext2D (mkCtx : ℕ → Option ℕ) (st : List (ℕ × ℕ)) (canvas : ℕ) :
    Option ℕ × List (ℕ × ℕ) :=
  match cacheLookup st canvas with
  | some ctx => (some ctx, st)
  | none =>
    match mkCtx canvas with
    | some ctx => (some ctx, (canvas, ctx) :: st)
    | none => (none, st)

/-- A sequence of further `getContext2D` calls, tracking only the cache. -/
def runCalls (mkCtx : ℕ → Option ℕ) (st : List (ℕ × ℕ)) (ds : List ℕ) : List (ℕ × ℕ) :=
  ds.foldl (fun s d => (getContext2D mkCtx s d).2) st

/-- A cache hit survives any further call (entries are only prepended, and
only for canvases that missed, so an existing key is never shadowed). -/
lemma cacheLookup_preserved (mkCtx : ℕ → Option ℕ) (st : List (ℕ × ℕ))
    (d canvas ctx : ℕ) (h : cacheLookup st canvas = some ctx) :
    cacheLookup (getContext2D mkCtx st d).2 canvas = some ctx := by
  unfold getContext2D
  cases hl : cacheLookup st d with
  | some c => simpa using h
  | none =>
    cases hm : mkCtx d with
    | none => simpa using h
    | some c =>
      rcases eq_or_ne d canvas with rfl | hne
      · rw [hl] at h; exact absurd h (by simp)
      · have hbe : (d == canvas) = false := by simpa using hne
        simpa [cacheLookup, List.find?, hbe] using h

/-- A miss for a canvas whose platform context is `null` also survives any
further call: no entry for that canvas is ever created. -/
lemma cacheLookup_none_preserved (mkCtx : ℕ → Option ℕ) (st : List (ℕ × ℕ))
    (d canvas : ℕ) (hmk : mkCtx canvas = none) (h : cacheLookup st canvas = none) :
    cacheLookup (getContext2D mkCtx st d).2 canvas = none := by
  unfold getContext2D
  cases hl : cacheLookup st d with
  | some c => simpa using h
  | none =>
    cases hm : mkCtx d with
    | none => simpa using h
    | some c =>
      rcases eq_or_ne d canvas with rfl | hne
      · rw [hmk] at hm; cases hm
      · have hbe : (d == canvas) = false := by simpa using hne
        simpa [cacheLookup, List.find?, hbe] using h

/-- Both preservation facts, folded over a whole call sequence. -/
lemma cacheLookup_runCalls (mkCtx : ℕ → Option ℕ) (st : List (ℕ × ℕ))
    (ds : List ℕ) (canvas : ℕ) :
    (∀ ctx, cacheLookup st canvas = some ctx →
      cacheLookup (runCalls mkCtx st ds) canvas = some ctx)
    ∧ (mkCtx canvas = none → cacheLookup st canvas = none →
      cacheLookup (runCalls mkCtx st ds) canvas = none) := by
  induction ds generalizing st with
  | nil => exact ⟨fun ctx h => h, fun _ h => h⟩
  | cons d ds ih =>
    refine ⟨fun ctx h => ?_, fun hmk h => ?_⟩
    · exact (ih _).1 ctx (cacheLookup_preserved mkCtx st d canvas ctx h)
    · exact (ih _).2 hmk (cacheLookup_none_preserved mkCtx st d canvas hmk h)

/-- Unfolding helper: a cache hit short-circuits context creation. -/
lemma getContext2D_fst_hit (mkCtx : ℕ → Option ℕ) (st : List (ℕ × ℕ)) (c ctx : ℕ)
    (h : cacheLookup st c = some ctx) : (getContext2D mkCtx st c).1 = some ctx := by
  unfold getContext2D
  rw [h]

/-- Unfolding helper: a miss with a null platform context returns null. -/
lemma getContext2D_fst_nullCase (mkCtx : ℕ → Option ℕ) (st : List (ℕ × ℕ)) (c : ℕ)
    (h : cacheLookup st c = none) (hm : mkCtx c = none) :
    (getContext2D mkCtx st c).1 = none := by
  unfold getContext2D
  rw [h, hm]

/-- C8: context acquisition is idempotent per surface.  A `getContext2D`
call on a canvas leaves the cache mapping that canvas to exactly the
returned context (`cacheLookup` agrees with the returned value, including
the `null` case), and a later call on the same canvas — after any sequence
of interleaved calls on arbitrary canvases — returns the same context, so
two calls on one surface never yield distinct contexts. -/
theorem getContext2D_idempotent (mkCtx : ℕ → Option ℕ) (st : List (ℕ × ℕ))
    (canvas : ℕ) (ds : List ℕ) :
    cacheLookup (getContext2D mkCtx st canvas).2 canvas = (getContext2D mkCtx st canvas).1
    ∧ (getContext2D mkCtx
        (runCalls mkCtx (getContext2D mkCtx st canvas).2 ds) canvas).1
      = (getContext2D mkCtx st canvas).1 := by
  have h1 : cacheLookup (getContext2D mkCtx st canvas).2 canvas
      = (getContext2D mkCtx st canvas).1 := by
    unfold getContext2D
    cases hl : cacheLookup st canvas with
    | some ctx => simpa using hl
    | none =>
      cases hm : mkCtx canvas with
      | some ctx => simp [cacheLookup, List.find?]
      | none => simpa using hl
  refine ⟨h1, ?_⟩
  cases hr : (getContext2D mkCtx st canvas).1 with
  | some ctx =>
    have hl2 := (cacheLookup_runCalls mkCtx (getContext2D mkCtx st canvas).2 ds canvas).1
      ctx (by rw [h1, hr])
    exact getContext2D_fst_hit mkCtx _ canvas ctx hl2
  | none =>
    have hkey : cacheLookup st canvas = none ∧ mkCtx canvas = none := by
      unfold getContext2D at hr
      cases hl : cacheLookup st canvas with
      | some c => rw [hl] at hr; simp at hr
      | none =>
        cases hm : mkCtx canvas with
        | some c => rw [hl, hm] at hr; simp at hr
        | none => exact ⟨rfl, rfl⟩
    have hst : (getContext2D mkCtx st canvas).2 = st := by
      unfold getContext2D
      rw [hkey.1, hkey.2]
    have hl2 := (cacheLookup_runCalls mkCtx (getContext2D mkCtx st canvas).2 ds canvas).2
      hkey.2 (by rw [hst]; exact hkey.1)
    exact getContext2D_fst_nullCase mkCtx _ canvas hl2 hkey.2

/-! Bitmap normalization and its release discipline. -/

/-- A platform `ImageBitmap` handle: geometry only (pixel content lives in
the environment's draw outcome). -/
structure Bitmap where
  width : ℕ
  height : ℕ

/-- Events a `fromImageBitmap` run performs on its bitmap argument:
`read` is the `ctx.drawImage(bitmap, 0, 0)` access, `close` is
`bitmap.close()`. -/
inductive BmEvent where
  | read : BmEvent
  | close : BmEvent
deriving DecidableEq

/-- Environment of a `fromImageBitmap` run: whether a canvas can be
created at all (`createCanvas` of src/unnamed/part_001 lines 27-38 throws
when neither `OffscreenCanvas` nor `document` exists; part_002's
`document.createElement` runs on the main thread where it always succeeds,
i.e. `canvasOk = true`), whether 2-D context creation succeeds
(`getContext` non-null), and the outcome of the draw-and-read-pixels block
(`ctx.drawImage` + `ctx.getImageData`), which may throw or produce the
bitmap's RGBA bytes. -/
structure CanvasEnv where
  canvasOk : Bool
  ctxOk : Bool
  draw : Bitmap → Except String (List ℕ)

/-- Embedding of `ImageRaw.fromImageBitmap` (src/unnamed/part_001 lines
246-274; src/unnamed/part_002 lines 120-158 is the same control flow
except that its `document.createElement('canvas')` cannot throw — the
`canvasOk = true` slice).  Paths, in source order:
the zero-dimension validation throws before anything touches the bitmap;
`createCanvas` throws (`canvasOk = false`) before `close()` is reachable;
a null 2-D context closes the bitmap and throws; otherwise the `try` block
draws (reading the bitmap) and the `finally` closes it whether the block
returned or threw.  The second component is the ordered trace of bitmap
accesses. -/
def fromImageBitmap (env : CanvasEnv) (b : Bitmap) :
    Except String ImageRaw × List BmEvent :=
  if b.width = 0 ∨ b.height = 0 then
    (Except.error "Invalid ImageBitmap: dimensions are zero (bitmap may be closed or neutered)",
      [])
  else if env.canvasOk = false then
    (Except.error "No canvas support available. Neither OffscreenCanvas nor document is available.",
      [])
  else if env.ctxOk = false then
    (Except.error "Failed to create canvas 2D context", [BmEvent.close])
  else
    match env.draw b with
    | Except.error e => (Except.error e, [BmEvent.read, BmEvent.close])
    | Except.ok data =>
      (Except.ok { data := data, width := b.width, height := b.height },
        [BmEvent.read, BmEvent.close])

/-- After the first `close` in a trace, no `read` occurs. -/
def noReadAfterClose : List BmEvent → Bool
  | [] => true
  | BmEvent.read :: rest => noReadAfterClose rest
  | BmEvent.close :: rest => rest.all fun e => e ≠ BmEvent.read

/-- C2 counterexample: two consuming paths never invoke `close()`, so the
handle is not "released exactly once on every code path that consumed it".
First, a zero-dimension bitmap is rejected by the validation throw before
the acquire/release scope.  Second, a 2×1 bitmap in an execution context
with no canvas support (neither `OffscreenCanvas` nor `document`, so
`createCanvas` at src/unnamed/part_001 line 252 throws) is consumed yet
never closed — `close()` is not reachable on that path either. -/
theorem fromImageBitmap_no_release_paths :
    ((fromImageBitmap ⟨true, true, fun _ => Except.ok []⟩ ⟨0, 1⟩).2.count BmEvent.close = 0
      ∧ (fromImageBitmap ⟨true, true, fun _ => Except.ok []⟩ ⟨0, 1⟩).1
          = Except.error
            "Invalid ImageBitmap: dimensions are zero (bitmap may be closed or neutered)")
    ∧ ((fromImageBitmap ⟨false, true, fun _ => Except.ok []⟩ ⟨2, 1⟩).2.count BmEvent.close = 0
      ∧ (fromImageBitmap ⟨false, true, fun _ => Except.ok []⟩ ⟨2, 1⟩).1
          = Except.error
            "No canvas support available. Neither OffscreenCanvas nor document is available.") := by
  refine ⟨⟨?_, ?_⟩, ?_, ?_⟩ <;> rfl

/-- C2 amended: for every bitmap with nonzero dimensions in an execution
context where a canvas can be created, `close()` is invoked exactly once
on every path — context-creation failure, a throw inside the draw/read
block, and success — and the bitmap is never read after it is closed.  It
is not invoked on the zero-dimension validation failure (the source treats
such a bitmap as already closed or neutered) nor on the canvas-creation
failure of a context with no canvas support, both of which throw before
the acquire/release scope. -/
theorem fromImageBitmap_release_once (env : CanvasEnv) (b : Bitmap) :
    (b.width ≠ 0 → b.height ≠ 0 → env.canvasOk = true →
      (fromImageBitmap env b).2.count BmEvent.close = 1
      ∧ noReadAfterClose (fromImageBitmap env b).2 = true)
    ∧ ((b.width = 0 ∨ b.height = 0) →
      (fromImageBitmap env b).2.count BmEvent.close = 0
      ∧ ∃ e, (fromImageBitmap env b).1 = Except.error e)
    ∧ (b.width ≠ 0 → b.height ≠ 0 → env.canvasOk = false →
      (fromImageBitmap env b).2.count BmEvent.close = 0
      ∧ (fromImageBitmap env b).1
          = Except.error
            "No canvas support available. Neither OffscreenCanvas nor document is available.") := by
  refine ⟨?_, ?_, ?_⟩
  · intro hw hh hcv
    have hcond : ¬(b.width = 0 ∨ b.height = 0) := by
      rintro (h | h) <;> [exact hw h; exact hh h]
    unfold fromImageBitmap
    rw [if_neg hcond, hcv]
    rw [if_neg (by decide : ¬((true : Bool) = false))]
    constructor <;>
      rcases env.ctxOk with _ | _ <;>
        simp <;>
          rcases env.draw b with e | d <;>
            rfl
  · intro hc
    unfold fromImageBitmap
    rw [if_pos hc]
    exact ⟨rfl, _, rfl⟩
  · intro hw hh hcv
    have hcond : ¬(b.width = 0 ∨ b.height = 0) := by
      rintro (h | h) <;> [exact hw h; exact hh h]
    unfold fromImageBitmap
    rw [if_neg hcond, hcv]
    exact ⟨rfl, rfl⟩

/-- Witness for C2's amended theorem: a 2×1 bitmap whose draw succeeds is
closed exactly once; a 0×1 bitmap is never closed; and a 3×2 bitmap in a
context with no canvas support is never closed. -/
theorem fromImageBitmap_release_once_witness :
    (fromImageBitmap ⟨true, true, fun _ => Except.ok [0, 0, 0, 255, 0, 0, 0, 255]⟩
      ⟨2, 1⟩).2.count BmEvent.close = 1
    ∧ (fromImageBitmap ⟨true, false, fun _ => Except.ok []⟩ ⟨0, 1⟩).2.count BmEvent.close = 0
    ∧ (fromImageBitmap ⟨false, true, fun _ => Except.ok []⟩ ⟨3, 2⟩).2.count BmEvent.close = 0 :=
  ⟨((fromImageBitmap_release_once ⟨true, true, fun _ => Except.ok [0, 0, 0, 255, 0, 0, 0, 255]⟩
      ⟨2, 1⟩).1 (by decide) (by decide) rfl).1,
   ((fromImageBitmap_release_once ⟨true, false, fun _ => Except.ok []⟩
      ⟨0, 1⟩).2.1 (Or.inl rfl)).1,
   ((fromImageBitmap_release_once ⟨false, true, fun _ => Except.ok []⟩
      ⟨3, 2⟩).2.2 (by decide) (by decide) rfl).1⟩

/-! Image-element and video-frame normalization: readiness behavior. -/

/-- A platform `HTMLImageElement`: load state, natural geometry, the
outcome of `decode()` (`false` models a rejected decode of a broken
image), and what rasterizing it yields. -/
structure HTMLImageElement where
  complete : Bool
  naturalWidth : ℕ
  naturalHeight : ℕ
  decodeOk : Bool
  pixels : List ℕ

/-- Embedding of `ImageRaw.fromHTMLImageElement` (src/unnamed/part_002
lines 165-180; src/unnamed/part_001 lines 298-324 adds a
`createImageBitmap` fast path with the same readiness handling): when the
element is not loaded (`!img.complete || img.naturalWidth === 0`) it
awaits `img.decode()` — failing only if the decode itself rejects — and
then proceeds to rasterize; there is no not-ready error for images. -/
def fromHTMLImageElement (img : HTMLImageElement) : Except String ImageRaw :=
  if img.complete = false ∨ img.naturalWidth = 0 then
    if img.decodeOk then
      Except.ok { data := img.pixels, width := img.naturalWidth, height := img.naturalHeight }
    else Except.error "EncodingError: decode failed"
  else
    Except.ok { data := img.pixels, width := img.naturalWidth, height := img.naturalHeight }

/-- A platform `HTMLVideoElement`: readiness state and the current frame's
geometry and pixels. -/
structure HTMLVideoElement where
  readyState : ℕ
  videoWidth : ℕ
  videoHeight : ℕ
  pixels : List ℕ
  ctxOk : Bool

/-- Embedding of `ImageRaw.fromHTMLVideoElement` (src/unnamed/part_002
lines 202-224): a frame with `readyState < 2` is rejected with a not-ready
error before any drawing happens. -/
def fromHTMLVideoElement (video : HTMLVideoElement) : Except String ImageRaw :=
  if video.readyState < 2 then
    Except.error "Video is not ready. Ensure video has loaded metadata and data."
  else if video.ctxOk = false then
    Except.error "Failed to create canvas 2D context"
  else
    Except.ok { data := video.pixels, width := video.videoWidth, height := video.videoHeight }

/-- C10: a not-yet-loaded image element (`complete` false or
`naturalWidth` 0) is not rejected with a not-ready error: after its
`decode()` resolves, `fromHTMLImageElement` produces a pixel buffer — while
a video frame with `readyState < 2` is rejected with the not-ready
error. -/
theorem fromHTMLImageElement_awaits_decode (img : HTMLImageElement)
    (video : HTMLVideoElement)
    (hnr : img.complete = false ∨ img.naturalWidth = 0)
    (hdec : img.decodeOk = true)
    (hv : video.readyState < 2) :
    fromHTMLImageElement img
      = Except.ok
        { data := img.pixels, width := img.naturalWidth, height := img.naturalHeight }
    ∧ fromHTMLVideoElement video
      = Except.error "Video is not ready. Ensure video has loaded metadata and data." := by
  constructor
  · unfold fromHTMLImageElement
    rw [if_pos hnr, if_pos hdec]
  · unfold fromHTMLVideoElement
    rw [if_pos hv]

/-- Witness for C10: an unloaded but decodable 1×1 image element yields
its buffer; a `readyState = 0` video frame is rejected as not ready. -/
theorem fromHTMLImageElement_awaits_decode_witness :
    fromHTMLImageElement ⟨false, 1, 1, true, [0, 0, 0, 255]⟩
      = Except.ok { data := [0, 0, 0, 255], width := 1, height := 1 }
    ∧ fromHTMLVideoElement ⟨0, 1, 1, [0, 0, 0, 255], true⟩
      = Except.error "Video is not ready. Ensure video has loaded metadata and data." :=
  fromHTMLImageElement_awaits_decode ⟨false, 1, 1, true, [0, 0, 0, 255]⟩
    ⟨0, 1, 1, [0, 0, 0, 255], true⟩ (Or.inl rfl) rfl (by decide)

/-! The promise-chained mutex of `Ocr.detect`. -/

namespace OcrMutex

/-- Phase of one queued `detect` call on a session: not yet started,
inside its `#detectInternal` body, or finished — the `Bool` records whether
the body succeeded (`true`) or threw (`false`); in either case the call's
`finally` has run `releaseMutex()`, resolving the promise the next queued
call awaits. -/
inductive Phase where
  | waiting : Phase
  | running : Phase
  | done : Bool → Phase
deriving DecidableEq

/-- Small-step semantics of the mutex discipline of `Ocr.detect`
(src/packages/common/src/Ocr.ts lines 30-47).  A session state lists the
queued calls in arrival (scheduling) order.  Call `k` synchronously
captured `currentMutex` — the promise created by call `k-1`, or the
initially resolved `#mutex` for call 0 — and replaced `#mutex` with its
own promise.  `start`: call `k` may enter `#detectInternal` only when its
captured promise has resolved, i.e. call `k-1` is done (with either
outcome), or `k = 0`.  `finish`: a running body completes with success or
failure `b`, and the `finally` resolves the call's own promise. -/
inductive Step : List Phase → List Phase → Prop where
  | start (s : List Phase) (k : ℕ)
      (hw : s[k]? = some Phase.waiting)
      (hpred : k = 0 ∨ ∃ b, s[k - 1]? = some (Phase.done b)) :
      Step s (s.set k Phase.running)
  | finish (s : List Phase) (k : ℕ) (b : Bool)
      (hr : s[k]? = some Phase.running) :
      Step s (s.set k (Phase.done b))

/-- Initial session state: `n` calls scheduled, none started. -/
def init (n : ℕ) : List Phase := List.replicate n Phase.waiting

/-- States a session with `n` queued calls can evolve into. -/
def Reachable (n : ℕ) (s : List Phase) : Prop :=
  Relation.ReflTransGen Step (init n) s

/-- Frontier invariant: some index `j` has every earlier call done and
every later call still waiting (call `j` itself may be in any phase). -/
def Inv (s : List Phase) : Prop :=
  ∃ j, (∀ i, i < j → ∃ b, s[i]? = some (Phase.done b))
    ∧ (∀ i, j < i → i < s.length → s[i]? = some Phase.waiting)

/-- The initial state satisfies the frontier invariant. -/
lemma inv_init (n : ℕ) : Inv (init n) := by
  refine ⟨0, fun i hi => absurd hi (Nat.not_lt_zero i), fun i _ hlen => ?_⟩
  have hn : i < n := by simpa [init] using hlen
  simp [init, List.getElem?_replicate, hn]

/-- Each step preserves the frontier invariant. -/
lemma inv_step {s s' : List Phase} (hst : Step s s') (hinv : Inv s) : Inv s' := by
  obtain ⟨j, hdone, hwait⟩ := hinv
  cases hst with
  | start k hw hpred =>
    have hklen : k < s.length := (List.getElem?_eq_some.mp hw).1
    have hjk : j ≤ k := by
      by_contra hlt
      push_neg at hlt
      obtain ⟨b, hb⟩ := hdone k hlt
      rw [hw] at hb
      simp at hb
    refine ⟨k, fun i hi => ?_, fun i hik hilen => ?_⟩
    · have hine : i ≠ k := Nat.ne_of_lt hi
      rw [List.getElem?_set, if_neg (fun h => hine h.symm)]
      rcases Nat.lt_or_ge i j with hij | hij
      · exact hdone i hij
      · have hjk' : j < k := lt_of_le_of_lt hij hi
        have hk0 : k ≠ 0 := by omega
        rcases hpred with rfl | ⟨b, hb⟩
        · exact absurd rfl hk0
        · have hk1 : k - 1 ≤ j := by
            by_contra hgt
            push_neg at hgt
            have := hwait (k - 1) hgt (lt_of_le_of_lt (Nat.sub_le k 1) hklen)
            rw [hb] at this
            simp at this
          have : i = k - 1 := by omega
          exact ⟨b, this ▸ hb⟩
    · have hik' : i ≠ k := (Nat.ne_of_lt hik).symm
      rw [List.getElem?_set, if_neg (fun h => hik' h.symm)]
      rw [List.length_set] at hilen
      exact hwait i (lt_of_le_of_lt hjk hik) hilen
  | finish k b hr =>
    have hklen : k < s.length := (List.getElem?_eq_some.mp hr).1
    have hkj : k = j := by
      rcases lt_trichotomy k j with h1 | h1 | h1
      · obtain ⟨c, hc⟩ := hdone k h1
        rw [hr] at hc
        simp at hc
      · exact h1
      · have := hwait k h1 hklen
        rw [hr] at this
        simp at this
    subst hkj
    refine ⟨k + 1, fun i hi => ?_, fun i hik hilen => ?_⟩
    · rcases Nat.lt_or_ge i k with hik | hik
      · rw [List.getElem?_set, if_neg (fun h => (Nat.ne_of_lt hik) h.symm)]
        exact hdone i hik
      · have : i = k := Nat.le_antisymm (Nat.le_of_lt_succ hi) hik
        subst this
        exact ⟨b, by rw [List.getElem?_set, if_pos rfl, if_pos hklen]⟩
    · have hik' : k ≠ i := Nat.ne_of_lt (Nat.lt_of_succ_lt hik)
      rw [List.getElem?_set, if_neg hik']
      rw [List.length_set] at hilen
      exact hwait i (Nat.lt_of_succ_lt hik) hilen

/-- Every reachable state satisfies the frontier invariant. -/
lemma inv_reachable {n : ℕ} {s : List Phase} (h : Reachable n s) : Inv s := by
  induction h with
  | refl => exact inv_init n
  | tail _ hstep ih => exact inv_step hstep ih

/-- C3: in every state a session can reach, at most one `#detectInternal`
body is executing (any two running indexes coincide), and calls execute in
scheduling order: whenever a later call has started (is running or done),
every earlier call has already finished.  There is no priority,
cancellation, or timeout rule: `start` and `finish` are the only
transitions. -/
theorem detect_serialized_fifo (n : ℕ) (s : List Phase) (h : Reachable n s) :
    (∀ a b : ℕ, s[a]? = some Phase.running → s[b]? = some Phase.running → a = b)
    ∧ (∀ i k : ℕ, i < k →
        (s[k]? = some Phase.running ∨ ∃ bo : Bool, s[k]? = some (Phase.done bo)) →
        ∃ bi : Bool, s[i]? = some (Phase.done bi)) := by
  obtain ⟨j, hdone, hwait⟩ := inv_reachable h
  have hrun_eq : ∀ a, s[a]? = some Phase.running → a = j := by
    intro a ha
    rcases lt_trichotomy a j with h1 | h1 | h1
    · obtain ⟨b, hb⟩ := hdone a h1
      rw [ha] at hb
      simp at hb
    · exact h1
    · have := hwait a h1 (List.getElem?_eq_some.mp ha).1
      rw [ha] at this
      simp at this
  constructor
  · intro a b ha hb
    rw [hrun_eq a ha, hrun_eq b hb]
  · intro i k hik hk
    have hkj : k ≤ j := by
      by_contra hgt
      push_neg at hgt
      have hklen : k < s.length := by
        rcases hk with hk | ⟨bo, hk⟩ <;> exact (List.getElem?_eq_some.mp hk).1
      have hwk := hwait k hgt hklen
      rcases hk with hk | ⟨bo, hk⟩ <;> (rw [hk] at hwk; simp at hwk)
    exact hdone i (lt_of_lt_of_le hik hkj)

/-- Witness for C3 at the reachable two-call state `[done true, running]`
(call 0 ran and finished, call 1 is inside its body): the serialization
theorem yields that call 0 is already done. -/
theorem detect_serialized_fifo_witness :
    ∃ bi, ([Phase.done true, Phase.running] : List Phase)[0]? = some (Phase.done bi) := by
  have h1 : Step [Phase.waiting, Phase.waiting] [Phase.running, Phase.waiting] :=
    Step.start [Phase.waiting, Phase.waiting] 0 (by decide) (Or.inl rfl)
  have h2 : Step [Phase.running, Phase.waiting] [Phase.done true, Phase.waiting] :=
    Step.finish [Phase.running, Phase.waiting] 0 true (by decide)
  have h3 : Step [Phase.done true, Phase.waiting] [Phase.done true, Phase.running] :=
    Step.start [Phase.done true, Phase.waiting] 1 (by decide) (Or.inr ⟨true, by decide⟩)
  have hreach : Reachable 2 [Phase.done true, Phase.running] :=
    ((Relation.ReflTransGen.refl.tail h1).tail h2).tail h3
  exact (detect_serialized_fifo 2 [Phase.done true, Phase.running] hreach).2 0 1
    (by decide) (Or.inl (by decide))

/-- Terminal state: every queued call finished, call `k` with outcome
`f k` (`false` = its promise rejected). -/
def allDone (n : ℕ) (f : ℕ → Bool) : List Phase :=
  (List.range n).map fun k => Phase.done (f k)

/-- A step of the tail calls lifts over an already-finished head call. -/
lemma step_cons {x : Phase} {s s' : List Phase} (hx : ∃ b, x = Phase.done b)
    (h : Step s s') : Step (x :: s) (x :: s') := by
  cases h with
  | start k hw hpred =>
    have hset : (x :: s).set (k + 1) Phase.running = x :: s.set k Phase.running := rfl
    rw [← hset]
    refine Step.start _ (k + 1) (by simpa using hw) ?_
    cases k with
    | zero =>
      right
      obtain ⟨b, rfl⟩ := hx
      exact ⟨b, by simp⟩
    | succ m =>
      rcases hpred with h0 | ⟨b, hb⟩
      · exact absurd h0 (Nat.succ_ne_zero m)
      · right
        exact ⟨b, by simpa using hb⟩
  | finish k b hr =>
    have hset : (x :: s).set (k + 1) (Phase.done b) = x :: s.set k (Phase.done b) := rfl
    rw [← hset]
    exact Step.finish _ (k + 1) b (by simpa using hr)

/-- A whole execution of the tail calls lifts over a finished head call. -/
lemma reach_cons {x : Phase} {s s' : List Phase} (hx : ∃ b, x = Phase.done b)
    (h : Relation.ReflTransGen Step s s') :
    Relation.ReflTransGen Step (x :: s) (x :: s') := by
  induction h with
  | refl => exact Relation.ReflTransGen.refl
  | tail _ hbc ih => exact ih.tail (step_cons hx hbc)

/-- C4: whatever each call's outcome — including rejections, `f k = false`
— the session can always run every queued call to completion in FIFO
order: the state in which all `n` calls are done with outcomes `f` is
reachable.  In particular a failed call has released the mutex (it is
`done`, which is what resolves the promise the next call awaits), and all
later queued calls still execute and may succeed. -/
theorem detect_failure_no_blocking (n : ℕ) (f : ℕ → Bool) :
    Relation.ReflTransGen Step (init n) (allDone n f) := by
  induction n generalizing f with
  | zero => exact Relation.ReflTransGen.refl
  | succ m ih =>
    have h1 : Step (init (m + 1)) (Phase.running :: init m) :=
      Step.start (init (m + 1)) 0 (by simp [init, List.getElem?_replicate]) (Or.inl rfl)
    have h2 : Step (Phase.running :: init m) (Phase.done (f 0) :: init m) :=
      Step.finish (Phase.running :: init m) 0 (f 0) (by simp)
    have h3 : Relation.ReflTransGen Step (Phase.done (f 0) :: init m)
        (Phase.done (f 0) :: allDone m fun k => f (k + 1)) :=
      reach_cons ⟨f 0, rfl⟩ (ih fun k => f (k + 1))
    have hall : allDone (m + 1) f = Phase.done (f 0) :: allDone m fun k => f (k + 1) := by
      simp [allDone, List.range_succ_eq_map, List.map_map]
    rw [hall]
    exact ((Relation.ReflTransGen.refl.tail h1).tail h2).trans h3

end OcrMutex

end Ocr
